import Mathlib

/-!
Shallow embedding of the two notebooks of this repository:
  * the transfer-learning notebook (shape-image generator `create_image`,
    batch generator `generate_image_data`, classifier front end `predict_image`);
  * the U-Net segmentation notebook (`PlaneDataSet` with `__getitem__` /
    `__len__`, and the epoch loop `train`).

Machine reals appearing in the Python code (pixel normalisation, losses)
are embedded as rationals `Rat`; the external random source
(`random.randint`) is embedded as a function of an explicit seed drawn
uniformly from an initial segment of the naturals.
-/

/-- Model of Python `random.randint(a, b)`: a uniform draw from the
INCLUSIVE range `[a, b]`, given an underlying uniform seed `r`.  As `r`
ranges over `List.range (b - a + 1)`, every value of `[a, b]` is hit
exactly once. -/
def randint (a b r : Nat) : Nat := a + r % (b - a + 1)

/- ----------------------------------------------------------------
   U-Net notebook, cell `PlaneDataSet` (file `src/Mod04/02-Unet/U-Net
   (PyTorch).ipynb`).
   ---------------------------------------------------------------- -/

/-- Condition `rand > 1` guarding both flips in `PlaneDataSet.__getitem__`,
where `rand = random.randint(0, 2)`. -/
def flipDecision (rand : Nat) : Bool := rand > 1

/-- Pixel normalisation `image/255` from `__getitem__`; a raster is a list
of rows of 8-bit pixel values. -/
def normalizeRaster (raster : List (List Nat)) : List (List Rat) :=
  raster.map (fun row => row.map (fun p => (p : Rat) / 255))

/-- Effect on the pixel grid of
`Image.transpose(Image.FLIP_LEFT_RIGHT)`: each row is reversed. -/
def hflip (raster : List (List Rat)) : List (List Rat) :=
  raster.map List.reverse

/-- Processing applied by `__getitem__` to one raster (the image or the
mask): normalise to `[0,1]`, flip when `rand > 1`, then
`np.expand_dims(axis=0)` (wrap in a singleton leading dimension). -/
def transformRaster (rand : Nat) (raster : List (List Nat)) :
    List (List (List Rat)) :=
  let np := normalizeRaster raster
  let np := if flipDecision rand then hflip np else np
  [np]

/-- `PlaneDataSet.__getitem__`: one random draw `rand = randint(0, 2)` per
access (here the seed `r` of the draw is explicit), then the image and the
mask are loaded and processed, both flips guarded by the same `rand`. -/
def getitem (r : Nat) (image mask : List (List Nat)) :
    List (List (List Rat)) × List (List (List Rat)) :=
  let rand := randint 0 2 r
  (transformRaster rand image, transformRaster rand mask)

/-- `PlaneDataSet` state after `__init__`: the stored paths and
`self.filenames = os.listdir(mask_path)`. -/
structure PlaneDataSet where
  image_path : String
  mask_path : String
  filenames : List String
deriving DecidableEq

/-- `PlaneDataSet.__init__(image_path, mask_path)`, with the directory
listing passed as an explicit function `listdir`. -/
def PlaneDataSet.init (image_path mask_path : String)
    (listdir : String → List String) : PlaneDataSet :=
  ⟨image_path, mask_path, listdir mask_path⟩

/-- `PlaneDataSet.__len__`: `len(self.filenames)`. -/
def PlaneDataSet.len (ds : PlaneDataSet) : Nat := ds.filenames.length

/- ----------------------------------------------------------------
   U-Net notebook, function `train` (epoch loop).
   ---------------------------------------------------------------- -/

/-- Number of batches a PyTorch `DataLoader` with `drop_last=False` yields
over a dataset of `datasetSize` items at batch size `bs`:
`ceil(datasetSize / bs)`. -/
def numBatches (datasetSize bs : Nat) : Nat := (datasetSize + bs - 1) / bs

/-- The `train` epoch loop: the per-batch loss values (the model forward
pass and `loss_criteria` are opaque, embedded as `lossOf` on the batch
index) are accumulated by `train_loss += loss.item()`, and the function
returns `train_loss / len(data_loader.dataset)`. -/
def train (lossOf : Nat → Rat) (datasetSize bs : Nat) : Rat :=
  let train_loss :=
    (List.range (numBatches datasetSize bs)).foldl
      (fun acc b => acc + lossOf b) 0
  train_loss / (datasetSize : Rat)

/- ----------------------------------------------------------------
   Transfer-learning notebook (file `src/unnamed/part_000`), function
   `create_image(size, shape)`.
   ---------------------------------------------------------------- -/

/-- Filled-rectangle region of `ImageDraw.rectangle([(xy1,xy1),(xy2,xy2)])`:
both coordinates lie in the inclusive bounding box. -/
def inRect (xy1 xy2 x y : Nat) : Bool :=
  xy1 ≤ x && x ≤ xy2 && xy1 ≤ y && y ≤ xy2

/-- Filled-ellipse region of `ImageDraw.ellipse([(xy1,xy1),(xy2,xy2)])`:
the disc inscribed in the bounding box, stated over the doubled
coordinates to stay in integers. -/
def inEllipse (xy1 xy2 x y : Nat) : Bool :=
  (2 * (x : Int) - (xy1 + xy2)) ^ 2 + (2 * (y : Int) - (xy1 + xy2)) ^ 2
    ≤ ((xy2 : Int) - xy1) ^ 2

/-- Filled-triangle region of
`ImageDraw.polygon([(xy1,xy1),(xy2,xy2),(xy2,xy1)])`: the right triangle
with legs on the lines `y = xy1` and `x = xy2` and hypotenuse on `y = x`. -/
def inTriangle (xy1 xy2 x y : Nat) : Bool :=
  xy1 ≤ y && y ≤ x && x ≤ xy2

/-- Shape dispatch of `create_image`: `'circle'` draws an ellipse,
`'square'` a rectangle, and EVERY other label falls into the
`else # triangle` branch. -/
def inShape (shape : String) (xy1 xy2 x y : Nat) : Bool :=
  if shape = "circle" then inEllipse xy1 xy2 x y
  else if shape = "square" then inRect xy1 xy2 x y
  else inTriangle xy1 xy2 x y

/-- Rasterisation of `create_image` once its random draws are fixed: a
`size.1 × size.2` grid whose pixels are the fill colour `col` on the shape
region and the white background `(255, 255, 255)` elsewhere. -/
def renderImage (size : Nat × Nat) (shape : String) (xy1 xy2 : Nat)
    (col : Nat × Nat × Nat) : List (List (Nat × Nat × Nat)) :=
  (List.range size.2).map (fun y =>
    (List.range size.1).map (fun x =>
      if inShape shape xy1 xy2 x y then col else (255, 255, 255)))

/-- `create_image(size, shape)` with the five `randint` seeds explicit:
`xy1 = randint(10,40)`, `xy2 = randint(60,100)`,
`col = (randint(0,200), randint(0,200), randint(0,200))`, then one shape
is drawn filled on a white `size`-sized RGB canvas. -/
def create_image (size : Nat × Nat) (shape : String)
    (s1 s2 s3 s4 s5 : Nat) : List (List (Nat × Nat × Nat)) :=
  let xy1 := randint 10 40 s1
  let xy2 := randint 60 100 s2
  let col := (randint 0 200 s3, randint 0 200 s4, randint 0 200 s5)
  renderImage size shape xy1 xy2 col

/-- Specification predicate for one call of `create_image`: the corner
draws lie in the two disjoint inclusive ranges `[10, 40]` and `[60, 100]`
(so the shape extent is at least 20), every fill channel is at most 200,
each of the three samplers is uniform (its image over the seed domain is
exactly its inclusive range, each value once), the raster has the
requested dimensions, and the pixel at any in-range position `(x, y)` is
the fill colour on the shape region and the white background
`(255, 255, 255)` elsewhere. -/
def CreateImageSpec (size : Nat × Nat) (shape : String)
    (s1 s2 s3 s4 s5 x y : Nat) : Prop :=
  10 ≤ randint 10 40 s1 ∧ randint 10 40 s1 ≤ 40 ∧
  60 ≤ randint 60 100 s2 ∧ randint 60 100 s2 ≤ 100 ∧
  randint 10 40 s1 + 20 ≤ randint 60 100 s2 ∧
  randint 0 200 s3 ≤ 200 ∧ randint 0 200 s4 ≤ 200 ∧
  randint 0 200 s5 ≤ 200 ∧
  (List.range 31).map (randint 10 40) = List.range' 10 31 ∧
  (List.range 41).map (randint 60 100) = List.range' 60 41 ∧
  (List.range 201).map (randint 0 200) = List.range' 0 201 ∧
  (create_image size shape s1 s2 s3 s4 s5).length = size.2 ∧
  (∀ row ∈ create_image size shape s1 s2 s3 s4 s5,
    row.length = size.1) ∧
  ((create_image size shape s1 s2 s3 s4 s5).getD y []).getD x (0, 0, 0)
    = (if inShape shape (randint 10 40 s1) (randint 60 100 s2) x y
       then (randint 0 200 s3, randint 0 200 s4, randint 0 200 s5)
       else (255, 255, 255))

/- ----------------------------------------------------------------
   Transfer-learning notebook, function
   `generate_image_data(classes, size, cases, img_dir)`.
   ---------------------------------------------------------------- -/

/-- Outcome of the nested `try/except` around `img.save(imgFileName)`:
the save succeeds at once, succeeds on the single retry, or fails twice
and is only logged (`print("Error saving image", ...)`). -/
inductive SaveResult where
  | savedFirst
  | savedRetry
  | failedLogged
deriving DecidableEq

/-- Number of `img.save` attempts each outcome stands for. -/
def SaveResult.attempts : SaveResult → Nat
  | .savedFirst => 1
  | .savedRetry => 2
  | .failedLogged => 2

/-- The `try: save / except: try: save / except: print` block, with the
filesystem embedded as an oracle giving the success of the first and the
second attempt on each file name. -/
def saveOne (oracle : String → Bool × Bool) (fname : String) : SaveResult :=
  if (oracle fname).1 then .savedFirst
  else if (oracle fname).2 then .savedRetry
  else .failedLogged

/-- Record of one pass through the body of the inner `for classname in
classes` loop: the class the image was generated for, the save folder
`os.path.join(img_dir, classname)` (kept relative to `img_dir`), the file
name `classname + str(i) + '.jpg'`, and the save outcome. -/
structure SaveRecord where
  classname : String
  folder : String
  fileName : String
  result : SaveResult
deriving DecidableEq

/-- Cumulative effect on the list of existing class subdirectories of the
`if not os.path.exists(saveFolder): os.makedirs(saveFolder)` guard run
once per class, in class order. -/
def addDirs (created : List String) (classes : List String) :
    List String :=
  classes.foldl (fun acc c => if c ∈ acc then acc else acc ++ [c]) created

/-- The save records produced by one pass of the inner `for classname in
classes` loop at file index `i`. -/
def blockRecords (oracle : String → Bool × Bool) (i : Nat)
    (classes : List String) : List SaveRecord :=
  classes.map (fun c =>
    let fname := c ++ Nat.repr i ++ ".jpg"
    ⟨c, c, fname, saveOne oracle fname⟩)

/-- The body of the inner `for classname in classes` loop, threading the
list of class subdirectories created so far (`os.makedirs(saveFolder)`
guarded by `if not os.path.exists(saveFolder)`) and the list of save
records, in program order. -/
def saveBlock (oracle : String → Bool × Bool) (i : Nat)
    (classes : List String) (acc : List String × List SaveRecord) :
    List String × List SaveRecord :=
  classes.foldl
    (fun acc c =>
      let fname := c ++ Nat.repr i ++ ".jpg"
      ((if c ∈ acc.1 then acc.1 else acc.1 ++ [c]),
       acc.2 ++ [⟨c, c, fname, saveOne oracle fname⟩]))
    acc

/-- The `while (i < (cases - 1) / len(classes))` loop of
`generate_image_data`.  Python increments `i` at the top of the body, so
the pass guarded by counter value `i` saves files indexed `i + 1`; the
float comparison `i < (cases-1)/len(classes)` is the integer comparison
`i * len(classes) < cases - 1` over `Int`.  The loop is embedded with a
fuel argument (structural recursion); `generate_run` supplies fuel
`cases`, which lemma `cond_lt_iters` shows is never exhausted. -/
def genLoopF (classes : List String) (cases : Nat)
    (oracle : String → Bool × Bool) :
    Nat → Nat → List String × List SaveRecord →
    List String × List SaveRecord
  | 0, _, acc => acc
  | fuel + 1, i, acc =>
    if (i : Int) * classes.length < (cases : Int) - 1 then
      genLoopF classes cases oracle fuel (i + 1)
        (saveBlock oracle (i + 1) classes acc)
    else acc

/-- Number of passes the `while` loop of `generate_image_data` makes:
the number of naturals `i` with `i < (cases - 1) / len(classes)`, namely
`⌈(cases - 1) / nclasses⌉` (zero when `cases ≤ 1`). -/
def iters (cases nclasses : Nat) : Nat :=
  if cases ≤ 1 then 0 else (cases - 2) / nclasses + 1

/-- The generation phase of `generate_image_data` (everything after
`os.makedirs(img_dir)`): the subdirectories created and the files saved,
starting from an empty fresh `img_dir`. -/
def generate_run (classes : List String) (cases : Nat)
    (oracle : String → Bool × Bool) : List String × List SaveRecord :=
  genLoopF classes cases oracle cases 0 ([], [])

/-- Result of a call to `generate_image_data`.  `aborted` is the early
`return` taken when the directory exists and the prompt answer is not
`"Y"`: it happens before `shutil.rmtree`, `os.makedirs` and the loop, so
it carries no created directories and no saves.  `completed` records
whether the old directory was deleted first, the class subdirectories
created, and the save records. -/
inductive GenOutcome where
  | aborted
  | completed (deletedOld : Bool) (dirs : List String)
      (saves : List SaveRecord)
deriving DecidableEq

/-- `generate_image_data(classes, size, cases, img_dir)` with the
environment explicit: `dirExists` is `os.path.exists(img_dir)`,
`userInput` the answer read by `input(...)`, and `oracle` the filesystem
behaviour of the `img.save` attempts.  (The `size` argument only feeds
`create_image` and does not affect the directory/file structure.) -/
def generate_image_data (classes : List String) (cases : Nat)
    (dirExists : Bool) (userInput : String)
    (oracle : String → Bool × Bool) : GenOutcome :=
  if dirExists then
    if userInput = "Y" then
      let r := generate_run classes cases oracle
      .completed true r.1 r.2
    else .aborted
  else
    let r := generate_run classes cases oracle
    .completed false r.1 r.2

/- ----------------------------------------------------------------
   Transfer-learning notebook, function
   `predict_image(classifier, image_array)`.
   ---------------------------------------------------------------- -/

/-- The fixed ordered label list
`classnames = ['circle', 'square', 'triangle']` of `predict_image`. -/
def classnames : List String := ["circle", "square", "triangle"]

/-- Model of `np.argmax` on a 1-D array: the index of the first maximal
element, `none` on an empty array (where NumPy raises). -/
def argmax : List Rat → Option Nat
  | [] => none
  | x :: xs =>
    match argmax xs with
    | none => some 0
    | some j => if xs.getD j 0 ≤ x then some 0 else some (j + 1)

/-- Input formatting of `predict_image`: `imgfeatures =
image_array.astype('float32'); imgfeatures /= 255` (each image is its
flattened list of 8-bit pixel values). -/
def normalizeBatch (image_array : List (List Nat)) : List (List Rat) :=
  image_array.map (fun img => img.map (fun v => (v : Rat) / 255))

/-- `predict_image(classifier, image_array)`: the batch is normalised,
the classifier (an opaque external model) maps the normalised batch to
one probability row per image, and each row is mapped to
`classnames[np.argmax(row)]`.  Out-of-range indexing of `classnames` (or
`np.argmax` on an empty row), which raises in Python, is `none`. -/
def predict_image (classifier : List (List Rat) → List (List Rat))
    (image_array : List (List Nat)) : Option (List String) :=
  let predictions := classifier (normalizeBatch image_array)
  predictions.mapM (fun p => (argmax p).bind (fun j => classnames[j]?))

/- ----------------------------------------------------------------
   Claim theorems.
   ---------------------------------------------------------------- -/

/-- Claim C1 (code bug): the accessor's flip is NOT taken with
probability 1/2.  The draw `rand = random.randint(0, 2)` is uniform over
the three values `0, 1, 2`, and the guard `rand > 1` fires on exactly one
of them, so the mirror is applied with probability 1/3; the code's own
comments ("Get a random intenger between 1 and 2", "Randomly flip the
image half the time") document the intended 1/2. -/
theorem getitem_flip_probability_one_third :
    (List.range 3).map (randint 0 2) = [0, 1, 2] ∧
    (((List.range 3).map (randint 0 2)).filter
        (fun r => flipDecision r)) = [2] ∧
    ((1 : Rat) / 3 ≠ 1 / 2) :=
  ⟨by decide, by decide, by norm_num⟩

/-- Claim C3: for every access, `__getitem__` makes a single draw `rand`
and guards both mirrors with it, so there is one boolean decision `b`
such that the returned pair is (image flipped iff `b`, mask flipped iff
`b`): both flipped or neither. -/
theorem getitem_coupled_flip (r : Nat) (image mask : List (List Nat)) :
    ∃ b : Bool,
      getitem r image mask =
        ((if b then [hflip (normalizeRaster image)]
          else [normalizeRaster image]),
         (if b then [hflip (normalizeRaster mask)]
          else [normalizeRaster mask])) := by
  refine ⟨flipDecision (randint 0 2 r), ?_⟩
  cases hb : flipDecision (randint 0 2 r) <;>
    simp [getitem, transformRaster, hb]

/-- Claim C7: the dataset's reported length is the length of
`os.listdir(mask_path)`, the number of files in the mask directory
(whatever the image directory holds). -/
theorem planeDataSet_len_eq_mask_count (image_path mask_path : String)
    (listdir : String → List String) :
    (PlaneDataSet.init image_path mask_path listdir).len
      = (listdir mask_path).length := rfl

/-- Claim C4: when the output directory already exists and the prompt
answer is anything other than `"Y"`, `generate_image_data` takes the
early `return`: no deletion, no directory creation, no saves. -/
theorem generate_image_data_declined_noop (classes : List String)
    (cases : Nat) (userInput : String) (oracle : String → Bool × Bool)
    (h : userInput ≠ "Y") :
    generate_image_data classes cases true userInput oracle
      = .aborted := by
  simp [generate_image_data, h]

/-- Witness for C4 at the concrete declined answer `"n"`. -/
theorem generate_image_data_declined_noop_witness :
    generate_image_data ["circle", "square", "triangle"] 1200 true "n"
      (fun _ => (true, true)) = .aborted :=
  generate_image_data_declined_noop ["circle", "square", "triangle"]
    1200 "n" (fun _ => (true, true)) (by decide)

/-- Counterexample to claim C9 as stated: with a dataset of 4 samples at
batch size 2 the loader yields 2 batches, and with each batch loss equal
to 1 the loop reports `2 / 4 = 1/2`, not the mean over the 2 loss
contributions, which is `2 / 2 = 1`. -/
theorem train_not_mean_over_contributions :
    numBatches 4 2 = 2 ∧
    train (fun _ => 1) 4 2 = 1 / 2 ∧
    ((List.range (numBatches 4 2)).foldl (fun acc _ => acc + (1 : Rat)) 0)
        / ((numBatches 4 2 : Nat) : Rat) = 1 ∧
    train (fun _ => 1) 4 2
      ≠ ((List.range (numBatches 4 2)).foldl
          (fun acc _ => acc + (1 : Rat)) 0)
          / ((numBatches 4 2 : Nat) : Rat) := by
  refine ⟨rfl, ?_, ?_, ?_⟩ <;>
    norm_num [train, numBatches, List.range_succ]

/-- Claim C9 as amended: each epoch of `train` accumulates the per-batch
losses into a running total and reports that total divided by
`len(data_loader.dataset)` (the number of samples, which exceeds the
number of batch loss contributions whenever batches hold more than one
sample). -/
theorem train_mean_over_dataset (lossOf : Nat → Rat)
    (datasetSize bs : Nat) :
    train lossOf datasetSize bs
      = ((List.range (numBatches datasetSize bs)).map lossOf).sum
          / (datasetSize : Rat) := by
  unfold train
  rw [List.sum_eq_foldl, List.foldl_map]

/-- Claim C10: every shape label other than `'circle'` and `'square'`
falls into the `else # triangle` branch of `create_image`, so the
generated raster is identical to the one generated for `'triangle'` with
the same random draws; no label fails. -/
theorem create_image_other_labels_triangle (size : Nat × Nat)
    (shape : String) (s1 s2 s3 s4 s5 : Nat)
    (h1 : shape ≠ "circle") (h2 : shape ≠ "square") :
    create_image size shape s1 s2 s3 s4 s5
      = create_image size "triangle" s1 s2 s3 s4 s5 := by
  simp [create_image, renderImage, inShape, h1, h2]

/-- Witness for C10 at the concrete label `"hexagon"`. -/
theorem create_image_other_labels_triangle_witness :
    create_image (4, 4) "hexagon" 0 0 0 0 0
      = create_image (4, 4) "triangle" 0 0 0 0 0 :=
  create_image_other_labels_triangle (4, 4) "hexagon" 0 0 0 0 0
    (by decide) (by decide)

/- ----------------------------------------------------------------
   Helper lemmas: the random sampler.
   ---------------------------------------------------------------- -/

/-- Bounds of the embedded `random.randint(a, b)`: the draw always lies
in the inclusive range `[a, b]`. -/
theorem randint_mem_range (a b r : Nat) (h : a ≤ b) :
    a ≤ randint a b r ∧ randint a b r ≤ b := by
  unfold randint
  have hm : r % (b - a + 1) < b - a + 1 := Nat.mod_lt _ (by omega)
  omega

/-- Uniformity of the embedded `random.randint(a, b)`: over its seed
domain its image is exactly the inclusive range `[a, b]`, each value
once. -/
theorem randint_uniform (a b : Nat) :
    (List.range (b - a + 1)).map (randint a b)
      = List.range' a (b - a + 1) := by
  rw [List.range'_eq_map_range]
  apply List.map_congr_left
  intro r hr
  rw [List.mem_range] at hr
  unfold randint
  rw [Nat.mod_eq_of_lt hr]

/-- Reading position `y < n` of `(List.range n).map f` yields `f y`. -/
theorem getD_map_range {α : Type} (f : Nat → α) (d : α) {n y : Nat}
    (hy : y < n) : ((List.range n).map f).getD y d = f y := by
  rw [List.getD_eq_getElem?_getD, List.getElem?_map,
    List.getElem?_range hy]
  rfl

/-- Claim C6: for every requested size and shape label (and any seeds of
the five random draws), `create_image` succeeds and satisfies
`CreateImageSpec`: corner draws uniform over the disjoint inclusive
ranges `[10, 40]` and `[60, 100]` (extent at least 20), fill channels
uniform over `[0, 200]`, raster of the requested dimensions, fill colour
exactly on the shape region and white `(255, 255, 255)` elsewhere. -/
theorem create_image_spec (size : Nat × Nat) (shape : String)
    (s1 s2 s3 s4 s5 x y : Nat) (hx : x < size.1) (hy : y < size.2) :
    CreateImageSpec size shape s1 s2 s3 s4 s5 x y := by
  have h1 := randint_mem_range 10 40 s1 (by norm_num)
  have h2 := randint_mem_range 60 100 s2 (by norm_num)
  have h3 := randint_mem_range 0 200 s3 (by norm_num)
  have h4 := randint_mem_range 0 200 s4 (by norm_num)
  have h5 := randint_mem_range 0 200 s5 (by norm_num)
  refine ⟨h1.1, h1.2, h2.1, h2.2, by omega, h3.2, h4.2, h5.2,
    randint_uniform 10 40, randint_uniform 60 100, randint_uniform 0 200,
    ?_, ?_, ?_⟩
  · simp [create_image, renderImage]
  · intro row hrow
    simp only [create_image, renderImage, List.mem_map] at hrow
    obtain ⟨y', _, hrow⟩ := hrow
    simp [← hrow]
  · simp only [create_image, renderImage]
    rw [getD_map_range _ _ hy, getD_map_range _ _ hx]

/-- Witness for C6 at size 128 × 128, label `"square"`, concrete seeds
and the in-range pixel `(20, 20)`. -/
theorem create_image_spec_witness :
    CreateImageSpec (128, 128) "square" 0 0 5 0 0 20 20 :=
  create_image_spec (128, 128) "square" 0 0 5 0 0 20 20
    (by decide) (by decide)

/- ----------------------------------------------------------------
   Helper lemmas: `argmax` and `predict_image`.
   ---------------------------------------------------------------- -/

/-- The embedded `np.argmax` never returns `none` on a nonempty row. -/
theorem argmax_cons_ne_none (x : Rat) (xs : List Rat) :
    argmax (x :: xs) ≠ none := by
  intro h
  simp only [argmax] at h
  rcases hxs : argmax xs with _ | j <;> simp only [hxs] at h
  · exact Option.noConfusion h
  · split at h <;> exact Option.noConfusion h

/-- The embedded `np.argmax` on a nonempty row returns an index of a
maximal element. -/
theorem argmax_spec (l : List Rat) (hne : l ≠ []) :
    ∃ j, argmax l = some j ∧ j < l.length ∧ ∀ q ∈ l, q ≤ l.getD j 0 := by
  induction l with
  | nil => cases hne rfl
  | cons x xs ih =>
    cases hxs : argmax xs with
    | none =>
      have hxsnil : xs = [] := by
        cases xs with
        | nil => rfl
        | cons z zs => exact absurd hxs (argmax_cons_ne_none z zs)
      subst hxsnil
      refine ⟨0, by simp [argmax], by simp, ?_⟩
      intro q hq
      simp at hq
      simp [hq]
    | some j =>
      have hxs_ne : xs ≠ [] := by
        rintro rfl
        simp [argmax] at hxs
      obtain ⟨j0, hj0, hlt, hmax⟩ := ih hxs_ne
      rw [hxs] at hj0
      injection hj0 with hj0
      subst hj0
      by_cases hle : xs.getD j 0 ≤ x
      · refine ⟨0, ?_, by simp, ?_⟩
        · simp only [argmax, hxs]
          rw [if_pos hle]
        · intro q hq
          rcases List.mem_cons.mp hq with rfl | hq
          · simp
          · simpa using le_trans (hmax q hq) hle
      · refine ⟨j + 1, ?_, by simpa using hlt, ?_⟩
        · simp only [argmax, hxs]
          rw [if_neg hle]
        · intro q hq
          have hd : (x :: xs).getD (j + 1) 0 = xs.getD j 0 := rfl
          rw [hd]
          rcases List.mem_cons.mp hq with rfl | hq
          · exact le_of_lt (lt_of_not_ge hle)
          · exact hmax q hq

/-- Mapping each probability row through `argmax` and the label list
succeeds on rows of length at most `classnames.length` and relates each
row to the label at an index of maximal probability. -/
theorem mapM_argmax_labels (ps : List (List Rat))
    (hlen : ∀ p ∈ ps, p ≠ [] ∧ p.length ≤ classnames.length) :
    ∃ labels,
      ps.mapM (fun p => (argmax p).bind (fun j => classnames[j]?))
        = some labels ∧
      List.Forall₂ (fun (p : List Rat) (lab : String) =>
        ∃ j, j < p.length ∧ classnames[j]? = some lab ∧
          ∀ q ∈ p, q ≤ p.getD j 0) ps labels := by
  induction ps with
  | nil => exact ⟨[], rfl, List.Forall₂.nil⟩
  | cons p ps ih =>
    obtain ⟨hpne, hp3⟩ := hlen p (List.mem_cons_self _ _)
    obtain ⟨j, hj, hjlt, hjmax⟩ := argmax_spec p hpne
    have hjc : j < classnames.length := lt_of_lt_of_le hjlt hp3
    obtain ⟨labels, hl, hf⟩ :=
      ih (fun q hq => hlen q (List.mem_cons_of_mem _ hq))
    refine ⟨classnames[j] :: labels, ?_, ?_⟩
    · rw [List.mapM_cons, hl]
      simp [hj, List.getElem?_eq_getElem hjc]
    · exact List.Forall₂.cons
        ⟨j, hjlt, List.getElem?_eq_getElem hjc, hjmax⟩ hf

/-- Claim C8: for every classifier and batch whose prediction rows each
have one probability per class of the fixed label list
`['circle', 'square', 'triangle']`, `predict_image` returns one label
per input image, and each returned label is the entry of `classnames` at
an index of maximal predicted probability for that image. -/
theorem predict_image_spec
    (classifier : List (List Rat) → List (List Rat))
    (image_array : List (List Nat))
    (hrows : (classifier (normalizeBatch image_array)).length
      = image_array.length)
    (hlen : ∀ p ∈ classifier (normalizeBatch image_array),
      p.length = 3) :
    ∃ labels, predict_image classifier image_array = some labels ∧
      labels.length = image_array.length ∧
      List.Forall₂ (fun (p : List Rat) (lab : String) =>
          ∃ j, j < p.length ∧ classnames[j]? = some lab ∧
            ∀ q ∈ p, q ≤ p.getD j 0)
        (classifier (normalizeBatch image_array)) labels := by
  obtain ⟨labels, hl, hf⟩ :=
    mapM_argmax_labels (classifier (normalizeBatch image_array))
      (fun p hp => ⟨List.ne_nil_of_length_pos (by rw [hlen p hp]; norm_num),
        by rw [hlen p hp]; rfl⟩)
  exact ⟨labels, hl, by rw [← hrows, hf.length_eq], hf⟩

/-- Witness for C8: a constant classifier on a one-image batch yields
one label, drawn from `classnames` at an index of maximal probability. -/
theorem predict_image_spec_witness :
    ∃ labels,
      predict_image (fun _ => [[1/2, 1/3, 1/6]]) [[0]] = some labels ∧
      labels.length = ([[0]] : List (List Nat)).length ∧
      List.Forall₂ (fun (p : List Rat) (lab : String) =>
          ∃ j, j < p.length ∧ classnames[j]? = some lab ∧
            ∀ q ∈ p, q ≤ p.getD j 0)
        ((fun _ => [[1/2, 1/3, 1/6]]) (normalizeBatch [[0]])) labels :=
  predict_image_spec (fun _ => [[1/2, 1/3, 1/6]]) [[0]] rfl
    (by intro p hp; simp at hp; rw [hp]; rfl)

/- ----------------------------------------------------------------
   Helper lemmas: the generation loop of `generate_image_data`.
   ---------------------------------------------------------------- -/

/-- Membership in `addDirs` is preserved from the initial directory
list. -/
theorem mem_addDirs_left {a : String} {d : List String}
    (l : List String) (ha : a ∈ d) : a ∈ addDirs d l := by
  induction l generalizing d with
  | nil => exact ha
  | cons c cs ih =>
    simp only [addDirs, List.foldl_cons]
    split <;> exact ih (by simp [ha])

/-- Every class of the block ends up in `addDirs`. -/
theorem mem_addDirs_right {c : String} {l : List String}
    (d : List String) (hc : c ∈ l) : c ∈ addDirs d l := by
  induction l generalizing d with
  | nil => cases hc
  | cons c0 cs ih =>
    simp only [addDirs, List.foldl_cons]
    rcases List.mem_cons.mp hc with rfl | hc
    · refine mem_addDirs_left cs ?_
      split
      · assumption
      · simp
    · exact ih _ hc

/-- When every class is already present, `addDirs` creates nothing. -/
theorem addDirs_eq_self {d l : List String}
    (h : ∀ c ∈ l, c ∈ d) : addDirs d l = d := by
  induction l generalizing d with
  | nil => rfl
  | cons c cs ih =>
    simp only [addDirs, List.foldl_cons]
    rw [if_pos (h c (List.mem_cons_self _ _))]
    exact ih (fun c' hc' => h c' (List.mem_cons_of_mem _ hc'))

/-- A second pass of `addDirs` over the same classes is a no-op. -/
theorem addDirs_addDirs (d l : List String) :
    addDirs (addDirs d l) l = addDirs d l :=
  addDirs_eq_self (fun _ hc => mem_addDirs_right d hc)

/-- Starting from directories disjoint from a duplicate-free class list,
`addDirs` appends exactly the classes, in order. -/
theorem addDirs_of_disjoint {d l : List String}
    (hnd : l.Nodup) (hdj : ∀ c ∈ l, c ∉ d) : addDirs d l = d ++ l := by
  induction l generalizing d with
  | nil => simp [addDirs]
  | cons c cs ih =>
    have hnd' := (List.nodup_cons.mp hnd).2
    have hcns := (List.nodup_cons.mp hnd).1
    have h1 : addDirs d (c :: cs) = addDirs (d ++ [c]) cs := by
      simp only [addDirs, List.foldl_cons]
      rw [if_neg (hdj c (List.mem_cons_self _ _))]
    rw [h1, ih hnd' ?_]
    · simp
    · intro c' hc'
      simp only [List.mem_append, List.mem_singleton]
      rintro (hd | rfl)
      · exact hdj c' (List.mem_cons_of_mem _ hc') hd
      · exact hcns hc'

/-- One pass of the inner class loop separates into its directory effect
(`addDirs`) and its save records (`blockRecords`). -/
theorem saveBlock_eq (oracle : String → Bool × Bool) (i : Nat)
    (classes : List String) (acc : List String × List SaveRecord) :
    saveBlock oracle i classes acc
      = (addDirs acc.1 classes, acc.2 ++ blockRecords oracle i classes) := by
  induction classes generalizing acc with
  | nil => simp [saveBlock, addDirs, blockRecords]
  | cons c cs ih =>
    simp only [saveBlock, addDirs, blockRecords, List.foldl_cons,
      List.map_cons] at *
    rw [ih]
    simp

/-- The Python loop guard `i < (cases - 1) / len(classes)` (float
division) holds exactly for the first `iters cases N` counter values. -/
theorem cond_lt_iters {N : Nat} (hN : 0 < N) (cases i : Nat) :
    ((i : Int) * N < (cases : Int) - 1) ↔ i < iters cases N := by
  have hcast : (i : Int) * N = ((i * N : Nat) : Int) := by push_cast; ring
  rw [hcast]
  unfold iters
  by_cases hc : cases ≤ 1
  · rw [if_pos hc]
    omega
  · rw [if_neg hc]
    rw [Nat.lt_succ_iff, Nat.le_div_iff_mul_le hN]
    omega

/-- Directory effect of the whole `while` loop: with enough fuel, one or
more passes create exactly the directories `addDirs acc.1 classes`, and
zero passes leave `acc.1`. -/
theorem genLoopF_dirs (classes : List String) (cases : Nat)
    (oracle : String → Bool × Bool) (hne : classes ≠ []) :
    ∀ fuel i acc, iters cases classes.length ≤ i + fuel →
      (genLoopF classes cases oracle fuel i acc).1
        = if i < iters cases classes.length then addDirs acc.1 classes
          else acc.1 := by
  have hN : 0 < classes.length := List.length_pos.mpr hne
  intro fuel
  induction fuel with
  | zero =>
    intro i acc hfu
    rw [if_neg (by omega)]
    rfl
  | succ fuel ih =>
    intro i acc hfu
    by_cases hi : i < iters cases classes.length
    · have hcond := (cond_lt_iters hN cases i).mpr hi
      rw [if_pos hi, genLoopF, if_pos hcond, ih (i + 1) _ (by omega)]
      simp only [saveBlock_eq]
      by_cases hi1 : i + 1 < iters cases classes.length
      · rw [if_pos hi1]
        exact addDirs_addDirs _ _
      · rw [if_neg hi1]
    · have hcond : ¬((i : Int) * classes.length < (cases : Int) - 1) :=
        fun h => hi ((cond_lt_iters hN cases i).mp h)
      rw [if_neg hi, genLoopF, if_neg hcond]

/-- One block of save records holds, for each class, as many records as
the class occurs in the class list. -/
theorem blockRecords_filter (oracle : String → Bool × Bool) (i : Nat)
    (classes : List String) (c : String) :
    ((blockRecords oracle i classes).filter
        (fun r => r.classname = c)).length
      = (classes.filter (fun x => x = c)).length := by
  induction classes with
  | nil => rfl
  | cons c0 cs ih =>
    by_cases hc : c0 = c <;>
      simp [blockRecords, List.filter_cons, hc] <;>
      simpa [blockRecords] using ih

/-- Per-class record count of the whole `while` loop: with enough fuel,
each class gains one record per pass and per occurrence in the class
list. -/
theorem genLoopF_count (classes : List String) (cases : Nat)
    (oracle : String → Bool × Bool) (c : String) (hne : classes ≠ []) :
    ∀ fuel i acc, iters cases classes.length ≤ i + fuel →
      ((genLoopF classes cases oracle fuel i acc).2.filter
          (fun r => r.classname = c)).length
        = (acc.2.filter (fun r => r.classname = c)).length
          + (iters cases classes.length - i)
            * (classes.filter (fun x => x = c)).length := by
  have hN : 0 < classes.length := List.length_pos.mpr hne
  intro fuel
  induction fuel with
  | zero =>
    intro i acc hfu
    have h0 : iters cases classes.length - i = 0 := by omega
    rw [h0]
    simp [genLoopF]
  | succ fuel ih =>
    intro i acc hfu
    by_cases hi : i < iters cases classes.length
    · have hcond := (cond_lt_iters hN cases i).mpr hi
      rw [genLoopF, if_pos hcond, ih (i + 1) _ (by omega)]
      simp only [saveBlock_eq]
      rw [List.filter_append, List.length_append, blockRecords_filter]
      have hsplit : iters cases classes.length - i
          = (iters cases classes.length - (i + 1)) + 1 := by omega
      rw [hsplit]
      ring
    · have hcond : ¬((i : Int) * classes.length < (cases : Int) - 1) :=
        fun h => hi ((cond_lt_iters hN cases i).mp h)
      rw [genLoopF, if_neg hcond]
      have h0 : iters cases classes.length - i = 0 := by omega
      rw [h0]
      simp

/-- Every record produced by the loop is saved into the subdirectory
named by the class it was generated for. -/
theorem genLoopF_folders (classes : List String) (cases : Nat)
    (oracle : String → Bool × Bool) :
    ∀ fuel i acc, (∀ r ∈ acc.2, r.folder = r.classname) →
      ∀ r ∈ (genLoopF classes cases oracle fuel i acc).2,
        r.folder = r.classname := by
  intro fuel
  induction fuel with
  | zero => exact fun i acc hacc => hacc
  | succ fuel ih =>
    intro i acc hacc r
    rw [genLoopF]
    split
    · refine ih (i + 1) _ ?_ r
      simp only [saveBlock_eq]
      intro r' hr'
      rcases List.mem_append.mp hr' with h | h
      · exact hacc r' h
      · simp only [blockRecords, List.mem_map] at h
        obtain ⟨c0, _, rfl⟩ := h
        rfl
    · exact hacc r

/-- Every record produced by the loop carries the outcome of the nested
`try/except` save of its own file name. -/
theorem genLoopF_results (classes : List String) (cases : Nat)
    (oracle : String → Bool × Bool) :
    ∀ fuel i acc,
      (∀ r ∈ acc.2, r.result = saveOne oracle r.fileName) →
      ∀ r ∈ (genLoopF classes cases oracle fuel i acc).2,
        r.result = saveOne oracle r.fileName := by
  intro fuel
  induction fuel with
  | zero => exact fun i acc hacc => hacc
  | succ fuel ih =>
    intro i acc hacc r
    rw [genLoopF]
    split
    · refine ih (i + 1) _ ?_ r
      simp only [saveBlock_eq]
      intro r' hr'
      rcases List.mem_append.mp hr' with h | h
      · exact hacc r' h
      · simp only [blockRecords, List.mem_map] at h
        obtain ⟨c0, _, rfl⟩ := h
        rfl
    · exact hacc r

/-- Which images are processed (class and file name, in order) does not
depend on the save outcomes: failures never remove or reorder the
remaining work. -/
theorem genLoopF_proj (classes : List String) (cases : Nat)
    (oracle oracle2 : String → Bool × Bool) :
    ∀ fuel i acc acc2,
      acc.2.map (fun r => (r.classname, r.fileName))
        = acc2.2.map (fun r => (r.classname, r.fileName)) →
      (genLoopF classes cases oracle fuel i acc).2.map
          (fun r => (r.classname, r.fileName))
        = (genLoopF classes cases oracle2 fuel i acc2).2.map
          (fun r => (r.classname, r.fileName)) := by
  intro fuel
  induction fuel with
  | zero => exact fun i acc acc2 h => h
  | succ fuel ih =>
    intro i acc acc2 h
    by_cases hcond : (i : Int) * classes.length < (cases : Int) - 1
    · simp only [genLoopF, if_pos hcond]
      refine ih (i + 1) _ _ ?_
      simp only [saveBlock_eq]
      rw [List.map_append, List.map_append, h]
      congr 1
      simp [blockRecords, List.map_map, Function.comp]
    · simp only [genLoopF, if_neg hcond]
      exact h

/-- Number of `img.save` attempts of the embedded `try/except` block:
one when the first attempt succeeds, two otherwise (the single retry),
and never more. -/
theorem attempts_saveOne (oracle : String → Bool × Bool) (f : String) :
    (saveOne oracle f).attempts = if (oracle f).1 then 1 else 2 := by
  by_cases h1 : (oracle f).1
  · simp [saveOne, h1, SaveResult.attempts]
  · by_cases h2 : (oracle f).2 <;>
      simp [saveOne, h1, h2, SaveResult.attempts]

/-- In a duplicate-free list, exactly one element equals a member. -/
theorem filter_eq_singleton_length {l : List String} {c : String}
    (hnd : l.Nodup) (hc : c ∈ l) :
    (l.filter (fun x => x = c)).length = 1 := by
  induction l with
  | nil => cases hc
  | cons c0 cs ih =>
    by_cases he : c0 = c
    · subst he
      have hnot : c0 ∉ cs := (List.nodup_cons.mp hnd).1
      have hnil : cs.filter (fun x => x = c0) = [] := by
        refine List.filter_eq_nil_iff.mpr ?_
        intro a ha
        simp only [decide_eq_true_eq]
        rintro rfl
        exact hnot ha
      simp [List.filter_cons, hnil]
    · have hc' : c ∈ cs := by
        rcases List.mem_cons.mp hc with rfl | h
        · exact absurd rfl he
        · exact h
      simp [List.filter_cons, he,
        ih (List.nodup_cons.mp hnd).2 hc']

/-- Counterexample to claim C2 as stated: on a fresh directory with one
class and a total case count of 1, the loop makes no pass, so NO class
subdirectory is created at all, while the claim promises exactly one
subdirectory per class. -/
theorem generate_image_data_small_cases_no_dirs :
    generate_image_data ["circle"] 1 false "" (fun _ => (true, true))
      = .completed false [] [] ∧
    ([] : List String) ≠ ["circle"] := ⟨rfl, by decide⟩

/-- Claim C2 as amended: for every duplicate-free nonempty class list,
total case count of at least 2, and fresh output directory,
`generate_image_data` creates exactly one subdirectory per class (in
class order) and writes exactly `⌈(cases - 1) / nclasses⌉ =
(cases - 1 + (nclasses - 1)) / nclasses` files into each class
subdirectory — the count is exact, not merely within ±1 — and every file
lies in the subdirectory named by the class it was generated for.  For
case counts below 2 the loop body never runs and no class subdirectory
is created (see the counterexample). -/
theorem generate_image_data_fresh_counts (classes : List String)
    (cases : Nat) (userInput : String) (oracle : String → Bool × Bool)
    (hnd : classes.Nodup) (hne : classes ≠ []) (h2 : 2 ≤ cases) :
    ∃ dirs saves,
      generate_image_data classes cases false userInput oracle
        = .completed false dirs saves ∧
      dirs = classes ∧
      (∀ c ∈ classes,
        (saves.filter (fun r => r.classname = c)).length
          = (cases - 1 + (classes.length - 1)) / classes.length) ∧
      (∀ r ∈ saves, r.folder = r.classname) := by
  have hN : 0 < classes.length := List.length_pos.mpr hne
  have hfu : iters cases classes.length ≤ 0 + cases := by
    unfold iters
    rw [if_neg (by omega)]
    have := Nat.div_le_self (cases - 2) classes.length
    omega
  have hK : 0 < iters cases classes.length := by
    unfold iters
    rw [if_neg (by omega)]
    exact Nat.succ_pos _
  refine ⟨(generate_run classes cases oracle).1,
    (generate_run classes cases oracle).2, by simp [generate_image_data],
    ?_, ?_, ?_⟩
  · unfold generate_run
    rw [genLoopF_dirs classes cases oracle hne cases 0 ([], []) hfu,
      if_pos hK]
    simpa using addDirs_of_disjoint hnd (by simp)
  · intro c hc
    unfold generate_run
    rw [genLoopF_count classes cases oracle c hne cases 0 ([], []) hfu]
    rw [filter_eq_singleton_length hnd hc]
    have harith : (cases - 1 + (classes.length - 1)) / classes.length
        = (cases - 2) / classes.length + 1 := by
      have hrew : cases - 1 + (classes.length - 1)
          = (cases - 2) + classes.length := by omega
      rw [hrew, Nat.add_div_right _ hN]
    rw [harith]
    unfold iters
    rw [if_neg (by omega)]
    simp
  · exact genLoopF_folders classes cases oracle cases 0 ([], [])
      (by intro r hr; cases hr)

/-- Witness for the amended C2 at the spec's end-to-end scenario: 30
cases over the three shape classes give three subdirectories with
`⌈29 / 3⌉ = 10` files each. -/
theorem generate_image_data_fresh_counts_witness :
    ∃ dirs saves,
      generate_image_data ["circle", "square", "triangle"] 30 false ""
        (fun _ => (true, true)) = .completed false dirs saves ∧
      dirs = ["circle", "square", "triangle"] ∧
      (∀ c ∈ ["circle", "square", "triangle"],
        (saves.filter (fun r => r.classname = c)).length
          = (30 - 1 + ((["circle", "square", "triangle"] :
              List String).length - 1))
              / (["circle", "square", "triangle"] :
                List String).length) ∧
      (∀ r ∈ saves, r.folder = r.classname) :=
  generate_image_data_fresh_counts ["circle", "square", "triangle"] 30
    "" (fun _ => (true, true)) (by decide) (by decide) (by decide)

/-- Claim C5: every save outcome of a generation run comes from the
nested `try/except` on its own file (one attempt when the first save
succeeds, exactly one retry otherwise, never a third attempt), and the
sequence of images processed (class and file name) is the same whatever
the save outcomes — a double failure is only logged and the loop
continues with the remaining images. -/
theorem generate_run_retry_once_continue (classes : List String)
    (cases : Nat) (oracle oracle2 : String → Bool × Bool) :
    (∀ r ∈ (generate_run classes cases oracle).2,
        r.result = saveOne oracle r.fileName ∧
        r.result.attempts = (if (oracle r.fileName).1 then 1 else 2) ∧
        r.result.attempts ≤ 2) ∧
    (generate_run classes cases oracle).2.map
        (fun r => (r.classname, r.fileName))
      = (generate_run classes cases oracle2).2.map
        (fun r => (r.classname, r.fileName)) := by
  constructor
  · intro r hr
    have hres := genLoopF_results classes cases oracle cases 0 ([], [])
      (by intro r' hr'; cases hr') r hr
    refine ⟨hres, ?_, ?_⟩
    · rw [hres, attempts_saveOne]
    · rw [hres, attempts_saveOne]
      split <;> omega
  · exact genLoopF_proj classes cases oracle oracle2 cases 0
      ([], []) ([], []) rfl

/-- Witness for C5: with a filesystem that always fails, the first saved
file of a concrete run is retried once and logged, for two attempts. -/
theorem generate_run_retry_once_continue_witness :
    (SaveRecord.result
        ⟨"circle", "circle", "circle1.jpg",
          SaveResult.failedLogged⟩).attempts = 2 := by
  have h := (generate_run_retry_once_continue ["circle"] 3
      (fun _ => (false, false)) (fun _ => (true, true))).1
      ⟨"circle", "circle", "circle1.jpg", SaveResult.failedLogged⟩
      (by decide)
  simpa using h.2.1
